import Mathlib

/-!
Shallow embedding of the `parsing-rs` repository (a JSON-like tokenizer and
recursive-descent parser) and verification of its specification claims.

Embedding conventions:
* Rust byte strings (`&str` / `&[u8]`) are `List Nat` (byte values).
* Fallible control flow is made explicit through `RRes`: a Rust `panic!`,
  `unimplemented!`, failed `unwrap`, or out-of-bounds index/slice is
  `RRes.panicked`; a returned `Err` is `RRes.err`; loops whose scan position
  can stop advancing are written with an explicit fuel parameter, and fuel
  exhaustion is `RRes.diverged` (the top-level wrappers supply fuel that is
  provably sufficient whenever the Rust loop terminates).
* `std::str::from_utf8` is treated as always succeeding: every call site in
  the sources receives a slice of a `&str` cut at ASCII boundaries, which is
  always valid UTF-8, and string comparison on `str` equals byte comparison.
* `f64` literals are interpreted exactly, as canonical decimal pairs
  `m · 10^e` (`Dec`), by `parseF64` (decimal grammar: sign, digits, optional
  fraction, optional exponent); binary64 rounding and the special forms
  inf/infinity/nan are not modelled.  Every numeric literal appearing in a
  claim is a small integer, on which the exact value and the `f64` value
  agree.
* `HashMap<String, Value>` is modelled as an association list with unique
  keys in first-insertion order; `insert` is `hashInsert`, which overwrites
  the value of an existing key in place.
-/

namespace Parsing

/-- Result of running embedded Rust code.  `diverged` models a loop that ran
out of fuel (non-termination), `panicked` a Rust panic/abort, `err` a
returned `Err`, `ok` a returned `Ok`/plain value. -/
inductive RRes (α : Type) where
  | diverged
  | panicked
  | err (e : String)
  | ok (a : α)
deriving DecidableEq

namespace RRes

def bind {α β : Type} : RRes α → (α → RRes β) → RRes β
  | .diverged, _ => .diverged
  | .panicked, _ => .panicked
  | .err e, _ => .err e
  | .ok a, f => f a

def map {α β : Type} (f : α → β) : RRes α → RRes β
  | .diverged => .diverged
  | .panicked => .panicked
  | .err e => .err e
  | .ok a => .ok (f a)

/-- `true` unless the computation ran out of fuel. -/
def halts {α : Type} : RRes α → Bool
  | .diverged => false
  | _ => true

end RRes

/-! ## Lexer of `src/lexer.rs` -/

namespace Lexer

/-- `TokenType` of lexer.rs. -/
inductive TokenType where
  | null
  | number
  | string
  | quote
  | boolean
  | leftBracket
  | rightBracket
  | leftSquareBracket
  | rightSquareBracket
  | colon
  | comma
deriving DecidableEq

/-- `Token` of lexer.rs; `s` is the borrowed byte span, `start` its byte
offset, `ty` the field `_type`. -/
structure Token where
  s : List Nat
  start : Nat
  ty : TokenType
deriving DecidableEq

/-- `is_delimiters` of lexer.rs. -/
def is_delimiters (c : Nat) : Bool :=
  c == 123 || c == 125 || c == 91 || c == 93 || c == 58 || c == 44

/-- Rust `u8::is_ascii_whitespace`: space, tab, LF, form feed, CR. -/
def isRustWhitespace (c : Nat) : Bool :=
  c == 32 || c == 9 || c == 10 || c == 12 || c == 13

/-- Rust `u8::is_ascii_digit`. -/
def isAsciiDigit (c : Nat) : Bool :=
  48 ≤ c && c ≤ 57

/-- `get_token_type` of lexer.rs.  Callers guard with `is_delimiters`, so the
final catch-all (the Rust code would panic on `unwrap`) is unreachable. -/
def get_token_type (c : Nat) : TokenType :=
  if c == 123 then .leftBracket
  else if c == 125 then .rightBracket
  else if c == 91 then .leftSquareBracket
  else if c == 93 then .rightSquareBracket
  else if c == 58 then .colon
  else .comma

/-- Length of the first chunk of Rust `split_inclusive(p)`: index of the
first byte satisfying `p`, plus one, or the whole length when no byte
matches.  Call sites pass a non-empty list, so the Rust `iter.next().unwrap()`
never panics there. -/
def firstChunkLen (p : Nat → Bool) : List Nat → Nat
  | [] => 0
  | c :: rest => if p c then 1 else 1 + firstChunkLen p rest

/-- `bytes[a..b]` for `a ≤ b ≤ len` (call sites keep the bounds valid). -/
def slice (bytes : List Nat) (a b : Nat) : List Nat :=
  (bytes.drop a).take (b - a)

/-- `add_quote_token` of lexer.rs: emits at most one `Quote` token and
returns the next scan position. -/
def add_quote_token (bytes : List Nat) (start : Nat) : List Token × Nat :=
  if start < bytes.length && bytes.getD start 0 == 34 then
    ([⟨[34], start, .quote⟩], start + 1)
  else
    ([], start)

/-- `get_string_in_quote` of lexer.rs: the emitted `String` token covers the
first `split_inclusive` chunk of `bytes[start..]` on `"` minus its final
byte, and scanning resumes on that final byte. -/
def get_string_in_quote (bytes : List Nat) (start : Nat) : List Token × Nat :=
  if start ≥ bytes.length then
    ([], start)
  else
    let length := firstChunkLen (fun c => c == 34) (bytes.drop start)
    ([⟨(bytes.drop start).take (length - 1), start, .string⟩], start + length - 1)

/-- `add_delimiter_token` of lexer.rs. -/
def add_delimiter_token (bytes : List Nat) (start : Nat) : List Token × Nat :=
  if start ≥ bytes.length then
    ([], start)
  else
    ([⟨[bytes.getD start 0], start, get_token_type (bytes.getD start 0)⟩], start + 1)

/-- The word classification of `add_keyword_or_number`: a word whose first
byte is an ASCII digit is a Number; the exact words `null`, `false`, `true`
are Null respectively Boolean; anything else is unsupported (`none`). -/
def keywordTy (b0 : Nat) (b : List Nat) : Option TokenType :=
  if isAsciiDigit b0 then some .number
  else if b = [110, 117, 108, 108] then some .null
  else if b = [102, 97, 108, 115, 101] then some .boolean
  else if b = [116, 114, 117, 101] then some .boolean
  else none

/-- `add_keyword_or_number` of lexer.rs.  The chunk end is
`start + chunk.len() - 1`, which drops the final byte of a word that reaches
the end of the buffer; `b[0]` on an empty word and the catch-all
`panic!("Unsupported keyword or number.")` are `RRes.panicked`. -/
def add_keyword_or_number (bytes : List Nat) (start : Nat) : RRes (List Token × Nat) :=
  if start ≥ bytes.length then .ok ([], start)
  else
    let chunkLen := firstChunkLen
      (fun c => isRustWhitespace c || is_delimiters c) (bytes.drop start)
    let e := start + chunkLen - 1
    let b := (bytes.drop start).take (chunkLen - 1)
    match b with
    | [] => .panicked
    | b0 :: _ =>
      match keywordTy b0 b with
      | some ty => .ok ([⟨b, start, ty⟩], e)
      | none => .panicked

/-- The scanning loop of `generate_tokens`, with explicit fuel; one unit of
fuel per loop iteration. -/
def genTokensFrom (bytes : List Nat) : Nat → Nat → RRes (List Token)
  | 0, _ => .diverged
  | fuel + 1, i =>
    if i ≥ bytes.length then .ok []
    else if bytes.getD i 0 == 34 then
      -- add_quoted_string
      let r1 := add_quote_token bytes i
      let r2 := get_string_in_quote bytes r1.2
      let r3 := add_quote_token bytes r2.2
      (genTokensFrom bytes fuel r3.2).map (fun ts => r1.1 ++ (r2.1 ++ (r3.1 ++ ts)))
    else if is_delimiters (bytes.getD i 0) then
      let r1 := add_delimiter_token bytes i
      (genTokensFrom bytes fuel r1.2).map (fun ts => r1.1 ++ ts)
    else if isRustWhitespace (bytes.getD i 0) then
      genTokensFrom bytes fuel (i + 1)
    else
      match add_keyword_or_number bytes i with
      | .ok r => (genTokensFrom bytes fuel r.2).map (fun ts => r.1 ++ ts)
      | .diverged => .diverged
      | .panicked => .panicked
      | .err e => .err e

/-- `generate_tokens` of lexer.rs.  Fuel `length + 1` is proved sufficient
(`generate_tokens_halts`): every loop iteration either stops or advances the
scan position. -/
def generate_tokens (bytes : List Nat) : RRes (List Token) :=
  genTokensFrom bytes (bytes.length + 1) 0

end Lexer

/-! ## Lexer of `src/lexer_lt.rs` -/

namespace LexerLt

/-- `Lexeme` of lexer_lt.rs; `ty` is the byte tag `_type`
(`"` quote, `s` string, `n` null, `t` boolean, `u` number, or the
delimiter byte itself). -/
structure Lexeme where
  s : List Nat
  start : Nat
  ty : Nat
deriving DecidableEq

/-- Index (relative) of the first `"` byte, if any. -/
def findQuoteIdx : List Nat → Option Nat
  | [] => none
  | c :: rest => if c == 34 then some 0 else (findQuoteIdx rest).map (· + 1)

/-- `get_string_in_quote` of lexer_lt.rs.  Its loop tests `s[j] == b'"'`
before `j >= s.len()`, so when no closing quote exists the index `s[j]` at
`j = s.len()` is out of bounds: `RRes.panicked`. -/
def get_string_in_quote (s : List Nat) (i : Nat) : RRes (Nat × Nat) :=
  if s.length ≤ i then .ok (i + 5, i + 1)
  else
    match findQuoteIdx (s.drop i) with
    | some q => .ok (i, i + q)
    | none => .panicked

/-- Stop bytes of `get_string` of lexer_lt.rs: the six delimiters, `"`,
space, tab, LF, CR (note: no form feed, unlike lexer.rs). -/
def isStopByte (c : Nat) : Bool :=
  c == 123 || c == 125 || c == 91 || c == 93 || c == 58 || c == 44 ||
  c == 34 || c == 32 || c == 9 || c == 10 || c == 13

/-- Index (relative) of the first stop byte, if any. -/
def findStopIdx : List Nat → Option Nat
  | [] => none
  | c :: rest => if isStopByte c then some 0 else (findStopIdx rest).map (· + 1)

/-- `get_string` of lexer_lt.rs.  When no stop byte follows, the local
`end` is never assigned and the function returns `(i, i)`. -/
def get_string (bytes : List Nat) (i : Nat) : Nat × Nat :=
  if bytes.length ≤ i then (i + 5, i)
  else
    match findStopIdx (bytes.drop i) with
    | some q => (i, i + q)
    | none => (i, i)

/-- One word-class check of `gen_lexemes`: the three non-exclusive `if`s on
the word `b` (null, true/false, first-byte-digit), in source order. -/
def wordLexemes (b : List Nat) (start : Nat) : List Lexeme :=
  (if b = [110, 117, 108, 108] then [⟨b, start, 110⟩] else []) ++
  (if b = [102, 97, 108, 115, 101] ∨ b = [116, 114, 117, 101] then [⟨b, start, 116⟩] else []) ++
  (if Lexer.isAsciiDigit (b.headD 0) then [⟨b, start, 117⟩] else [])

/-- The scanning loop of `gen_lexemes`, with explicit fuel; one unit of fuel
per loop iteration.  In the word branch with `end = start` (a word running to
the end of the buffer) the position does not advance, so no amount of fuel
completes: the Rust loop runs forever. -/
def genLexFrom (bytes : List Nat) : Nat → Nat → RRes (List Lexeme)
  | 0, _ => .diverged
  | fuel + 1, i =>
    if i ≥ bytes.length then .ok []
    else
      let c := bytes.getD i 0
      if c == 34 then
        let quoteLex : Lexeme := ⟨[34], i, 34⟩
        if i + 1 ≥ bytes.length then .ok [quoteLex]
        else
          match get_string_in_quote bytes (i + 1) with
          | .ok (start, e) =>
            if e > start then
              let strLex : Lexeme := ⟨Lexer.slice bytes start e, start, 115⟩
              if e < bytes.length && bytes.getD e 0 == 34 then
                (genLexFrom bytes fuel (e + 1)).map
                  (fun ls => quoteLex :: strLex :: (⟨[34], e, 34⟩ : Lexeme) :: ls)
              else
                (genLexFrom bytes fuel e).map (fun ls => quoteLex :: strLex :: ls)
            else
              (genLexFrom bytes fuel e).map (fun ls => quoteLex :: ls)
          | .diverged => .diverged
          | .panicked => .panicked
          | .err e => .err e
      else if c == 123 || c == 125 || c == 91 || c == 93 || c == 58 || c == 44 then
        (genLexFrom bytes fuel (i + 1)).map (fun ls => (⟨[c], i, c⟩ : Lexeme) :: ls)
      else if c == 32 || c == 9 || c == 10 || c == 13 then
        genLexFrom bytes fuel (i + 1)
      else
        let (start, e) := get_string bytes i
        if e > start then
          (genLexFrom bytes fuel e).map
            (fun ls => wordLexemes (Lexer.slice bytes start e) start ++ ls)
        else
          genLexFrom bytes fuel e

/-- `gen_lexemes` of lexer_lt.rs, with fuel `length + 1` (sufficient for
every loop that terminates; `diverged` exactly when the Rust loop does not
terminate, since each iteration that stays below this fuel either advances
the position or repeats the same state forever). -/
def gen_lexemes (bytes : List Nat) : RRes (List Lexeme) :=
  genLexFrom bytes (bytes.length + 1) 0

end LexerLt

/-! ## Value model (identical `Value` enums in parser.rs and parser_lt.rs) -/

/-- Exact decimal number `m · 10^e` in canonical form: `m` is zero (with
`e = 0`) or not divisible by 10, so two `Dec`s are equal exactly when they
denote the same number. -/
structure Dec where
  m : Int
  e : Int
deriving DecidableEq

/-- Strip factors of 10 from `m` into `e` (fuel-bounded; callers pass
`m.natAbs`, which exceeds the number of factors of 10). -/
def canonDec : Nat → Int → Int → Dec
  | 0, m, e => ⟨m, e⟩
  | fuel + 1, m, e => if m % 10 = 0 then canonDec fuel (m / 10) (e + 1) else ⟨m, e⟩

/-- Canonical `Dec` for `m · 10^e`. -/
def mkDec (m : Int) (e : Int) : Dec :=
  if m = 0 then ⟨0, 0⟩ else canonDec m.natAbs m e

/-- `Value` of parser.rs / parser_lt.rs.  `number` carries the exact decimal
value of the literal (see `parseF64`); `object` carries the `HashMap` as an
association list with unique keys in first-insertion order. -/
inductive Value where
  | null
  | bool (b : Bool)
  | number (q : Dec)
  | string (s : List Nat)
  | array (xs : List Value)
  | object (m : List (List Nat × Value))

/-- `HashMap::insert`: overwrite the value of an existing key in place, or
append a new binding. -/
def hashInsert (k : List Nat) (v : Value) : List (List Nat × Value) → List (List Nat × Value)
  | [] => [(k, v)]
  | (k', v') :: rest => if k = k' then (k, v) :: rest else (k', v') :: hashInsert k v rest

/-- `HashMap` lookup on the association-list model. -/
def hashGet (k : List Nat) : List (List Nat × Value) → Option Value
  | [] => none
  | (k', v') :: rest => if k = k' then some v' else hashGet k rest

/-- Leading run of ASCII digits and the remainder. -/
def takeDigits : List Nat → List Nat × List Nat
  | [] => ([], [])
  | c :: rest =>
    if Lexer.isAsciiDigit c then
      let (d, r) := takeDigits rest
      (c :: d, r)
    else ([], c :: rest)

/-- Value of a digit run. -/
def digitsVal (ds : List Nat) : Nat :=
  ds.foldl (fun acc c => 10 * acc + (c - 48)) 0

/-- `str::parse::<f64>` on the finite decimal grammar
(`[+-]? (digits [. digits?] | . digits) ([eE] [+-]? digits)?`), giving the
exact decimal value of the literal.  Binary64 rounding is not modelled (all
numeric literals in the claims are small integers, where the exact value and
the `f64` value agree), and the special forms inf/infinity/nan are treated
as unparseable. -/
def parseF64 (s : List Nat) : Option Dec :=
  let (sgn, s1) : Int × List Nat :=
    match s with
    | 43 :: r => (1, r)
    | 45 :: r => (-1, r)
    | _ => (1, s)
  let (ip, s2) := takeDigits s1
  let (fp, s3) :=
    match s2 with
    | 46 :: r =>
      let (d, r') := takeDigits r
      (some d, r')
    | _ => (none, s2)
  if ip = [] ∧ (fp = none ∨ fp = some []) then none
  else
    let fd := fp.getD []
    let m : Int := sgn * (digitsVal (ip ++ fd) : Int)
    let e0 : Int := -(fd.length : Int)
    match s3 with
    | [] => some (mkDec m e0)
    | e :: r =>
      if e = 101 ∨ e = 69 then
        let (esgn, r1) : Int × List Nat :=
          match r with
          | 43 :: rr => (1, rr)
          | 45 :: rr => (-1, rr)
          | _ => (1, r)
        let (ed, r2) := takeDigits r1
        if ed = [] ∨ r2 ≠ [] then none
        else some (mkDec m (e0 + esgn * (digitsVal ed : Int)))
      else none

/-! ## Parser of `src/parser.rs`

parser.rs imports `crate::lexer` but calls `get_lexemes` and uses
`TokenType` variants (`LBracket`, `SLBracket`, `Bool`, `Commas`, …) and a
`Token` with an owned `lexeme` string — a lexer module revision that is not
under src/.  The parser functions themselves are fully present and are
embedded below over that token representation. -/

namespace Parser

/-- Modelled from the spec: the token kinds consumed by parser.rs, whose
matching lexer module is not under src/; the kinds of §3 with the variant
names parser.rs references (`LBracket`/`RBracket` braces,
`SLBracket`/`SRBracket` square brackets, `Commas`), bare words carrying
their text. -/
inductive TokenType where
  | lBracket
  | rBracket
  | sLBracket
  | sRBracket
  | quote
  | string
  | bool
  | null
  | colon
  | commas
deriving DecidableEq

/-- Modelled from the spec: the token of parser.rs (owned copy of the
covered text plus a kind), as referenced by parser.rs itself. -/
structure Token where
  lexeme : List Nat
  ty : TokenType
deriving DecidableEq

/-- Placeholder token for guarded `getD` indexing (never observed: every
`getD` below sits behind the same length test as the Rust index). -/
def junk : Token := ⟨[], .null⟩

/-- `get_key` of parser.rs.  Note the source checks only `lexemes[1]`: the
bytes at positions 0 and 2 are consumed without being checked. -/
def get_key (lexemes : List Token) : RRes (List Nat × List Token) :=
  if lexemes.length < 3 then .err "String should be enclosed with quote."
  else if (lexemes.getD 1 junk).ty = .string then
    .ok ((lexemes.getD 1 junk).lexeme, lexemes.drop 3)
  else .err "Key should be string!"

/-- `get_colon` of parser.rs; `lexemes[0]` on an empty vector panics. -/
def get_colon (lexemes : List Token) : RRes (Value × List Token) :=
  match lexemes with
  | [] => .panicked
  | t :: rest =>
    if t.ty = .colon then .ok (.null, rest) else .err "Expect a colon!"

/-- `parse_bool_null_number` of parser.rs; `lexemes[0]` on an empty vector
panics (all call sites pass a non-empty vector). -/
def parse_bool_null_number (lexemes : List Token) : RRes (Value × List Token) :=
  match lexemes with
  | [] => .panicked
  | t :: rest =>
    if t.lexeme = [116, 114, 117, 101] then .ok (.bool true, rest)
    else if t.lexeme = [102, 97, 108, 115, 101] then .ok (.bool false, rest)
    else if t.lexeme = [110, 117, 108, 108] then .ok (.null, rest)
    else
      match parseF64 t.lexeme with
      | some n => .ok (.number n, rest)
      | none => .err "Unknown keyword. Not a number, or true, or false, or null"

mutual

/-- `parse_value` of parser.rs (fuel-indexed; one unit per call). -/
def parse_value : Nat → List Token → RRes (Value × List Token)
  | 0, _ => .diverged
  | fuel + 1, lexemes =>
    if lexemes.length = 0 then .err "Empty value"
    else
      match (lexemes.getD 0 junk).ty with
      | .lBracket => parse_object fuel lexemes
      | .quote =>
        (get_key lexemes).bind fun (s, rest) => .ok (.string s, rest)
      | .bool =>
        .ok (.bool ((lexemes.getD 0 junk).lexeme = [116, 114, 117, 101]), lexemes.drop 1)
      -- the source special-cases len == 1 to return vec![], which equals drop 1
      | .null => .ok (.null, lexemes.drop 1)
      | .sLBracket => parse_array fuel lexemes
      | .string => parse_bool_null_number lexemes
      | _ => .err "expect a value"

/-- `parse_object` of parser.rs.  A zero-length vector panics on
`&lexemes[1..]`, and after the member loop `lexemes[0]` panics when the
members consumed every remaining token. -/
def parse_object : Nat → List Token → RRes (Value × List Token)
  | 0, _ => .diverged
  | fuel + 1, lexemes =>
    if lexemes.length = 1 then .err "expect more data"
    else if lexemes.length = 2 then
      if (lexemes.getD 1 junk).ty = .rBracket then .ok (.object [], [])
      else .err "Ill format data"
    else if lexemes.length = 0 then .panicked
    else
      (get_key (lexemes.drop 1)).bind fun (key, l1) =>
      (get_colon l1).bind fun (_, l2) =>
      (parse_value fuel l2).bind fun (v, l3) =>
      (parse_object_loop fuel (hashInsert key v []) l3).bind fun (m, l4) =>
      match l4 with
      | [] => .panicked
      | t :: rest =>
        if t.ty = .rBracket then .ok (.object m, rest)
        else .err "object bracket is not matched."

/-- The member loop of `parse_object`: consume a comma, a key, a colon and a
value while the next token is `Commas`. -/
def parse_object_loop : Nat → List (List Nat × Value) → List Token →
    RRes (List (List Nat × Value) × List Token)
  | 0, _, _ => .diverged
  | fuel + 1, m, lexemes =>
    match lexemes with
    | [] => .ok (m, [])
    | t :: rest =>
      if t.ty = .commas then
        (get_key rest).bind fun (key, l1) =>
        (get_colon l1).bind fun (_, l2) =>
        (parse_value fuel l2).bind fun (v, l3) =>
        parse_object_loop fuel (hashInsert key v m) l3
      else .ok (m, lexemes)

/-- `parse_array` of parser.rs.  After the element loop the next token is
consumed by `lexemes[1..]` without checking that it is `]`; on an empty
remainder that slice panics. -/
def parse_array : Nat → List Token → RRes (Value × List Token)
  | 0, _ => .diverged
  | fuel + 1, lexemes =>
    if lexemes.length < 2 then .err "expect more data for array."
    else if (lexemes.getD 1 junk).ty = .sRBracket then .ok (.array [], lexemes.drop 2)
    else
      (parse_value fuel (lexemes.drop 1)).bind fun (v, l1) =>
      (parse_array_loop fuel [v] l1).bind fun (arr, l2) =>
      match l2 with
      | [] => .panicked
      | _ :: rest => .ok (.array arr, rest)

/-- The element loop of `parse_array`: parse a further value while the next
token is `Commas`. -/
def parse_array_loop : Nat → List Value → List Token →
    RRes (List Value × List Token)
  | 0, _, _ => .diverged
  | fuel + 1, arr, lexemes =>
    match lexemes with
    | [] => .ok (arr, [])
    | t :: rest =>
      if t.ty = .commas then
        (parse_value fuel rest).bind fun (v, l1) =>
        parse_array_loop fuel (arr ++ [v]) l1
      else .ok (arr, lexemes)

end

/-- `parse` of parser.rs: tokenize with the (missing) `get_lexemes`, then
`parse_value` — the leftover token vector is returned to the caller, with no
trailing-data check.  Fuel `4·length + 4` outruns the recursion depth. -/
def parse (get_lexemes : List Nat → List Token) (s : List Nat) :
    RRes (Value × List Token) :=
  parse_value (4 * (get_lexemes s).length + 4) (get_lexemes s)

end Parser

/-! ## Parser of `src/parser_lt.rs` -/

namespace ParserLt

open LexerLt (Lexeme)

/-- Placeholder lexeme for guarded `getD` indexing (never observed: every
`getD` below sits behind the same bounds test as the Rust index). -/
def junk : Lexeme := ⟨[], 0, 0⟩

/-- `parse_string` of parser_lt.rs: requires the exact
Quote/String/Quote lexeme triple. -/
def parse_string (lexemes : List Lexeme) : RRes (Value × List Lexeme) :=
  if lexemes.length < 3
      || !((lexemes.getD 0 junk).ty == 34)
      || !((lexemes.getD 2 junk).ty == 34)
      || !((lexemes.getD 1 junk).ty == 115) then
    .err "expected string"
  else
    .ok (.string (lexemes.getD 1 junk).s, lexemes.drop 3)

mutual

/-- `parse_value` of parser_lt.rs.  An empty lexeme sequence yields the
empty-string sentinel; a leading lexeme of unhandled type — or a number
lexeme whose text fails `parse::<f64>` — falls through to
`unimplemented!()`: `RRes.panicked`. -/
def parse_value : Nat → List Lexeme → RRes (Value × List Lexeme)
  | 0, _ => .diverged
  | fuel + 1, lexemes =>
    match lexemes with
    | [] => .ok (.string [], [])
    | t :: rest =>
      if t.ty = 123 then parse_object fuel lexemes
      else if t.ty = 91 then parse_array fuel lexemes
      else if t.ty = 34 then parse_string lexemes
      else if t.ty = 110 then .ok (.null, rest)
      else if t.ty = 116 then .ok (.bool (t.s = [116, 114, 117, 101]), rest)
      else if t.ty = 117 then
        match parseF64 t.s with
        | some n => .ok (.number n, rest)
        | none => .panicked
      else .panicked

/-- `parse_object` of parser_lt.rs. -/
def parse_object : Nat → List Lexeme → RRes (Value × List Lexeme)
  | 0, _ => .diverged
  | fuel + 1, lexemes =>
    if lexemes.length < 2 || !((lexemes.getD 0 junk).ty == 123) then
      .err "Not a object."
    else if (lexemes.getD 1 junk).ty = 125 then
      .ok (.object [], lexemes.drop 2)
    else
      (parse_object_loop fuel [] (lexemes.drop 1)).bind fun (m, lex) =>
      if lex.length < 1 || !((lex.getD 0 junk).ty == 125) then
        .err "right bracket expected."
      else
        .ok (.object m, lex.drop 1)

/-- The member loop of `parse_object` of parser_lt.rs.  `k.1[0]` after the
key and `v.1[0]` after the value are unguarded indexes: when the members
consume every remaining lexeme they panic. -/
def parse_object_loop : Nat → List (List Nat × Value) → List Lexeme →
    RRes (List (List Nat × Value) × List Lexeme)
  | 0, _, _ => .diverged
  | fuel + 1, m, lexemes =>
    match parse_string lexemes with
    | .ok (k, k1) =>
      match k with
      | .string s =>
        match k1 with
        | [] => .panicked
        | c :: k1rest =>
          if !(c.ty == 58) then .err "colon expected."
          else
            match parse_value fuel k1rest with
            | .ok (v, v1) =>
              let m' := hashInsert s v m
              match v1 with
              | [] => .panicked
              | t :: v1rest =>
                if !(t.ty == 44) then .ok (m', v1)
                else parse_object_loop fuel m' v1rest
            | .err _ => .err "not a value."
            | .panicked => .panicked
            | .diverged => .diverged
      | _ => .err "not a string."
    | .err _ => .err "string expected."
    | .panicked => .panicked
    | .diverged => .diverged

/-- `parse_array` of parser_lt.rs.  The loop breaks only on `]`, so the
final `&lexemes[1..]` drop is safe; a missing comma between elements does
not stop the loop. -/
def parse_array : Nat → List Lexeme → RRes (Value × List Lexeme)
  | 0, _ => .diverged
  | fuel + 1, lexemes =>
    if lexemes.length < 2 || !((lexemes.getD 0 junk).ty == 91) then
      .err "expect array"
    else
      (parse_array_loop fuel [] (lexemes.drop 1)).bind fun (vec, lex) =>
      .ok (.array vec, lex.drop 1)

/-- The element loop of `parse_array` of parser_lt.rs. -/
def parse_array_loop : Nat → List Value → List Lexeme →
    RRes (List Value × List Lexeme)
  | 0, _, _ => .diverged
  | fuel + 1, vec, lexemes =>
    if lexemes.length = 0 then .err "array expected."
    else if (lexemes.getD 0 junk).ty = 93 then .ok (vec, lexemes)
    else
      match parse_value fuel lexemes with
      | .ok (v, l1) =>
        if l1.length = 0 then .err "array expected."
        else if (l1.getD 0 junk).ty = 44 then
          parse_array_loop fuel (vec ++ [v]) (l1.drop 1)
        else
          parse_array_loop fuel (vec ++ [v]) l1
      | .err _ => .err "expect value inside array"
      | .panicked => .panicked
      | .diverged => .diverged

end

/-- `parse_lt` of parser_lt.rs: tokenize with `gen_lexemes`, parse one value
and return it, discarding any remaining lexemes.  Fuel `4·length + 4`
outruns the recursion depth. -/
def parse_lt (s : List Nat) : RRes Value :=
  match LexerLt.gen_lexemes s with
  | .ok lexemes =>
    (parse_value (4 * lexemes.length + 4) lexemes).bind fun (v, _) => .ok v
  | .diverged => .diverged
  | .panicked => .panicked
  | .err e => .err e

end ParserLt

/-! ## Token-span predicates (§3 invariant, §8 reconstruction) -/

/-- One past the last byte offset covered by a token. -/
def tokenStop (t : Lexer.Token) : Nat := t.start + t.s.length

/-- Spans are in order and non-overlapping: each token begins at or after
the end of the previous one. -/
def spansOrdered : List Lexer.Token → Bool
  | a :: b :: rest => decide (tokenStop a ≤ b.start) && spansOrdered (b :: rest)
  | _ => true

/-- Spans are strictly increasing (by start offset). -/
def spansStrictMono : List Lexer.Token → Bool
  | a :: b :: rest => decide (a.start < b.start) && spansStrictMono (b :: rest)
  | _ => true

/-- Byte offset `j` lies inside some emitted token span. -/
abbrev coveredBy (ts : List Lexer.Token) (j : Nat) : Prop :=
  ∃ t ∈ ts, t.start ≤ j ∧ j < tokenStop t

/-- No whitespace byte is covered by any token span. -/
abbrev tokensWsFree (bytes : List Nat) (ts : List Lexer.Token) : Prop :=
  ∀ t ∈ ts, ∀ j < tokenStop t, t.start ≤ j →
    Lexer.isRustWhitespace (bytes.getD j 0) = false

/-- Every input byte not covered by a token span is ASCII whitespace, so
concatenating the token spans with the skipped gaps reproduces the input. -/
abbrev gapsWhitespace (bytes : List Nat) (ts : List Lexer.Token) : Prop :=
  ∀ j < bytes.length, ¬ coveredBy ts j →
    Lexer.isRustWhitespace (bytes.getD j 0) = true

/-- Tokens `ts` lie inside `[a, b)`, are ordered, and cover all of `[a, b)`:
the segment of tokens one branch of the scanning loop emits. -/
def segSpans (bytes : List Nat) (ts : List Lexer.Token) (a b : Nat) : Prop :=
  a ≤ b ∧ b ≤ bytes.length ∧
  (∀ t ∈ ts, a ≤ t.start ∧ tokenStop t ≤ b) ∧
  spansOrdered ts = true ∧
  (∀ j, a ≤ j → j < b → coveredBy ts j)

/-- Invariant carried by the scanning loop of `generate_tokens` from
position `i` on: emitted tokens start at or after `i`, stay inside the
buffer, are ordered, and every uncovered byte from `i` on is whitespace. -/
def tokensInv (bytes : List Nat) (i : Nat) (ts : List Lexer.Token) : Prop :=
  (∀ t ∈ ts, i ≤ t.start ∧ tokenStop t ≤ bytes.length) ∧
  spansOrdered ts = true ∧
  (∀ j, i ≤ j → j < bytes.length → ¬ coveredBy ts j →
    Lexer.isRustWhitespace (bytes.getD j 0) = true)

/-! ## Lemmas: termination and span invariants of `generate_tokens` -/

lemma RRes.halts_map {α β : Type} (f : α → β) (r : RRes α) :
    (r.map f).halts = r.halts := by
  cases r <;> rfl

lemma RRes.map_eq_ok {α β : Type} {f : α → β} {r : RRes α} {b : β}
    (h : r.map f = .ok b) : ∃ a, r = .ok a ∧ b = f a := by
  cases r with
  | ok a =>
    simp only [RRes.map] at h
    cases h
    exact ⟨a, rfl, rfl⟩
  | diverged => cases h
  | panicked => cases h
  | err e => cases h

namespace Lexer

lemma firstChunkLen_pos (p : Nat → Bool) (c : Nat) (rest : List Nat) :
    1 ≤ firstChunkLen p (c :: rest) := by
  simp only [firstChunkLen]
  split <;> omega

lemma firstChunkLen_le (p : Nat → Bool) (xs : List Nat) :
    firstChunkLen p xs ≤ xs.length := by
  induction xs with
  | nil => simp [firstChunkLen]
  | cons c rest ih =>
    simp only [firstChunkLen, List.length_cons]
    split <;> omega

lemma add_quote_token_snd_ge (bytes : List Nat) (s : Nat) :
    s ≤ (add_quote_token bytes s).2 := by
  unfold add_quote_token
  split <;> simp

lemma get_string_in_quote_snd_ge (bytes : List Nat) (s : Nat) (h : s < bytes.length) :
    s ≤ (get_string_in_quote bytes s).2 := by
  unfold get_string_in_quote
  rw [if_neg (by omega)]
  have hd : bytes.drop s ≠ [] := by
    intro he
    have : bytes.length ≤ s := List.drop_eq_nil_iff.mp he
    omega
  obtain ⟨c, rest, hcr⟩ := List.exists_cons_of_ne_nil hd
  simp only [hcr]
  have := firstChunkLen_pos (fun c => c == 34) c rest
  omega

lemma add_keyword_or_number_ok_spec (bytes : List Nat) (i : Nat) (r : List Token × Nat)
    (hlen : i < bytes.length) (h : add_keyword_or_number bytes i = .ok r) :
    i + 1 ≤ r.2 ∧ r.2 ≤ bytes.length ∧
      ∃ t, r.1 = [t] ∧ t.start = i ∧ tokenStop t = r.2 := by
  unfold add_keyword_or_number at h
  rw [if_neg (by omega)] at h
  simp only at h
  have hdl : (bytes.drop i).length = bytes.length - i := List.length_drop ..
  have hLle := firstChunkLen_le (fun c => isRustWhitespace c || is_delimiters c) (bytes.drop i)
  set L := firstChunkLen (fun c => isRustWhitespace c || is_delimiters c) (bytes.drop i) with hL
  cases hb : (bytes.drop i).take (L - 1) with
  | nil => rw [hb] at h; cases h
  | cons b0 tl =>
    rw [hb] at h
    simp only at h
    have hblen : (b0 :: tl).length = L - 1 := by
      rw [← hb, List.length_take]
      omega
    have hL2 : 2 ≤ L := by
      simp only [List.length_cons] at hblen
      omega
    cases hk : keywordTy b0 (b0 :: tl) with
    | none => rw [hk] at h; cases h
    | some ty =>
      rw [hk] at h
      cases h
      refine ⟨by omega, by omega, ⟨b0 :: tl, i, ty⟩, rfl, rfl, ?_⟩
      show i + (b0 :: tl).length = i + L - 1
      rw [hblen]
      omega

lemma add_keyword_or_number_ne_diverged (bytes : List Nat) (i : Nat) :
    add_keyword_or_number bytes i ≠ .diverged := by
  unfold add_keyword_or_number
  intro h
  split at h
  · cases h
  · simp only at h
    split at h
    · cases h
    · split at h <;> cases h

lemma genTokensFrom_halts (bytes : List Nat) :
    ∀ fuel i, bytes.length - i < fuel → (genTokensFrom bytes fuel i).halts = true := by
  intro fuel
  induction fuel with
  | zero => intro i h; omega
  | succ n ih =>
    intro i h
    rw [genTokensFrom]
    by_cases h0 : i ≥ bytes.length
    · rw [if_pos h0]; rfl
    · rw [if_neg h0]
      push_neg at h0
      by_cases h1 : (bytes.getD i 0 == 34) = true
      · rw [if_pos h1]
        simp only
        rw [RRes.halts_map]
        apply ih
        have e1 : (add_quote_token bytes i).2 = i + 1 := by
          unfold add_quote_token
          rw [if_pos (by simp only [Bool.and_eq_true, decide_eq_true_eq]; exact ⟨h0, h1⟩)]
        rw [e1]
        have e2 : i + 1 ≤ (get_string_in_quote bytes (i + 1)).2 := by
          by_cases hc : i + 1 < bytes.length
          · exact get_string_in_quote_snd_ge bytes (i + 1) hc
          · unfold get_string_in_quote
            rw [if_pos (by omega)]
        have e3 := add_quote_token_snd_ge bytes (get_string_in_quote bytes (i + 1)).2
        omega
      · rw [if_neg h1]
        by_cases h2 : is_delimiters (bytes.getD i 0) = true
        · rw [if_pos h2]
          simp only
          rw [RRes.halts_map]
          apply ih
          have e1 : (add_delimiter_token bytes i).2 = i + 1 := by
            unfold add_delimiter_token
            rw [if_neg (by omega)]
          rw [e1]
          omega
        · rw [if_neg h2]
          by_cases h3 : isRustWhitespace (bytes.getD i 0) = true
          · rw [if_pos h3]
            apply ih
            omega
          · rw [if_neg h3]
            cases hk : add_keyword_or_number bytes i with
            | ok r =>
              simp only
              rw [RRes.halts_map]
              apply ih
              obtain ⟨ha, _, _⟩ := add_keyword_or_number_ok_spec bytes i r h0 hk
              omega
            | diverged => exact absurd hk (add_keyword_or_number_ne_diverged bytes i)
            | panicked => rfl
            | err e => rfl

lemma generate_tokens_halts (bytes : List Nat) :
    (generate_tokens bytes).halts = true :=
  genTokensFrom_halts bytes (bytes.length + 1) 0 (by omega)

end Lexer

lemma coveredBy_append {a b : List Lexer.Token} {j : Nat} :
    coveredBy (a ++ b) j ↔ coveredBy a j ∨ coveredBy b j := by
  simp [coveredBy, List.mem_append, or_and_right, exists_or]

lemma spansOrdered_cons_iff (x : Lexer.Token) (xs : List Lexer.Token) :
    spansOrdered (x :: xs) = true ↔
      (∀ u ∈ xs.head?, tokenStop x ≤ u.start) ∧ spansOrdered xs = true := by
  cases xs <;> simp [spansOrdered]

lemma spansOrdered_append (ts1 ts2 : List Lexer.Token) (k : Nat)
    (h1 : spansOrdered ts1 = true) (h2 : spansOrdered ts2 = true)
    (hstop : ∀ t ∈ ts1, tokenStop t ≤ k) (hstart : ∀ u ∈ ts2, k ≤ u.start) :
    spansOrdered (ts1 ++ ts2) = true := by
  induction ts1 with
  | nil => exact h2
  | cons a rest ih =>
    obtain ⟨hhead, hrest⟩ := (spansOrdered_cons_iff a rest).mp h1
    have hih := ih hrest (fun t ht => hstop t (List.mem_cons_of_mem a ht))
    rw [List.cons_append, spansOrdered_cons_iff]
    refine ⟨?_, hih⟩
    intro u hu
    cases rest with
    | nil =>
      simp only [List.nil_append] at hu
      have ha := hstop a (List.mem_cons_self a [])
      cases ts2 with
      | nil => cases hu
      | cons v vs =>
        simp only [List.head?_cons, Option.mem_def, Option.some.injEq] at hu
        have hv := hstart v (List.mem_cons_self v vs)
        cases hu
        omega
    | cons b r2 =>
      have hb : tokenStop a ≤ b.start := hhead b (by simp)
      simp only [List.cons_append, List.head?_cons, Option.mem_def, Option.some.injEq] at hu
      cases hu
      exact hb

lemma add_quote_token_seg (bytes : List Nat) (s : Nat) (hs : s ≤ bytes.length) :
    segSpans bytes (Lexer.add_quote_token bytes s).1 s (Lexer.add_quote_token bytes s).2 := by
  unfold Lexer.add_quote_token
  split
  · rename_i hcond
    simp only [Bool.and_eq_true, decide_eq_true_eq] at hcond
    refine ⟨by omega, by omega, ?_, rfl, ?_⟩
    · intro t ht
      simp only [List.mem_singleton] at ht
      subst ht
      exact ⟨le_refl s, by simp [tokenStop]⟩
    · intro j h1 h2
      simp only at h2
      refine ⟨⟨[34], s, .quote⟩, by simp, h1, ?_⟩
      simp only [tokenStop, List.length_singleton]
      omega
  · refine ⟨le_refl s, hs, by simp, rfl, ?_⟩
    intro j h1 h2
    simp only at h2
    omega

lemma get_string_in_quote_seg (bytes : List Nat) (s : Nat) (hs : s ≤ bytes.length) :
    segSpans bytes (Lexer.get_string_in_quote bytes s).1 s
      (Lexer.get_string_in_quote bytes s).2 := by
  unfold Lexer.get_string_in_quote
  split
  · rename_i hge
    refine ⟨le_refl s, hs, by simp, rfl, ?_⟩
    intro j h1 h2
    simp only at h2
    omega
  · rename_i hge
    push_neg at hge
    have hd : bytes.drop s ≠ [] := by
      intro he
      have : bytes.length ≤ s := List.drop_eq_nil_iff.mp he
      omega
    have hdl : (bytes.drop s).length = bytes.length - s := List.length_drop ..
    have hLle := Lexer.firstChunkLen_le (fun c => c == 34) (bytes.drop s)
    have hLpos : 1 ≤ Lexer.firstChunkLen (fun c => c == 34) (bytes.drop s) := by
      obtain ⟨c, rest, hcr⟩ := List.exists_cons_of_ne_nil hd
      rw [hcr]
      exact Lexer.firstChunkLen_pos (fun c => c == 34) c rest
    set L := Lexer.firstChunkLen (fun c => c == 34) (bytes.drop s) with hL
    have htake : ((bytes.drop s).take (L - 1)).length = L - 1 := by
      rw [List.length_take]
      omega
    simp only
    refine ⟨by omega, by omega, ?_, rfl, ?_⟩
    · intro t ht
      simp only [List.mem_singleton] at ht
      subst ht
      refine ⟨le_refl s, ?_⟩
      simp only [tokenStop, htake]
      omega
    · intro j h1 h2
      refine ⟨⟨(bytes.drop s).take (L - 1), s, .string⟩, by simp, h1, ?_⟩
      simp only [tokenStop, htake]
      omega

lemma add_delimiter_token_seg (bytes : List Nat) (s : Nat) (hs : s < bytes.length) :
    segSpans bytes (Lexer.add_delimiter_token bytes s).1 s
      (Lexer.add_delimiter_token bytes s).2 := by
  unfold Lexer.add_delimiter_token
  rw [if_neg (by omega)]
  refine ⟨by omega, by omega, ?_, rfl, ?_⟩
  · intro t ht
    simp only [List.mem_singleton] at ht
    subst ht
    exact ⟨le_refl s, by simp [tokenStop]⟩
  · intro j h1 h2
    simp only at h2
    refine ⟨⟨[bytes.getD s 0], s, Lexer.get_token_type (bytes.getD s 0)⟩, by simp, h1, ?_⟩
    simp only [tokenStop, List.length_singleton]
    omega

lemma add_keyword_or_number_ok_seg (bytes : List Nat) (i : Nat) (r : List Lexer.Token × Nat)
    (hlen : i < bytes.length) (h : Lexer.add_keyword_or_number bytes i = .ok r) :
    segSpans bytes r.1 i r.2 := by
  obtain ⟨h1, h2, t, ht1, ht2, ht3⟩ := Lexer.add_keyword_or_number_ok_spec bytes i r hlen h
  refine ⟨by omega, h2, ?_, ?_, ?_⟩
  · intro u hu
    rw [ht1, List.mem_singleton] at hu
    subst hu
    omega
  · rw [ht1]
    rfl
  · intro j hj1 hj2
    exact ⟨t, by rw [ht1]; simp, by omega, by omega⟩

lemma tokensInv_extend {bytes : List Nat} {pre ts' : List Lexer.Token} {i nxt : Nat}
    (hseg : segSpans bytes pre i nxt) (hinv : tokensInv bytes nxt ts') :
    tokensInv bytes i (pre ++ ts') := by
  obtain ⟨hinxt, hnxtlen, hmem, hord, hcov⟩ := hseg
  obtain ⟨hmem', hord', hgap'⟩ := hinv
  refine ⟨?_, ?_, ?_⟩
  · intro t ht
    rcases List.mem_append.mp ht with hmm | hmm
    · have := hmem t hmm
      exact ⟨this.1, by omega⟩
    · have := hmem' t hmm
      exact ⟨by omega, this.2⟩
  · exact spansOrdered_append pre ts' nxt hord hord'
      (fun t ht => (hmem t ht).2) (fun u hu => (hmem' u hu).1)
  · intro j hij hjlen hncov
    rw [coveredBy_append] at hncov
    push_neg at hncov
    by_cases hjn : j < nxt
    · exact absurd (hcov j hij hjn) hncov.1
    · exact hgap' j (by omega) hjlen hncov.2

lemma genTokensFrom_inv (bytes : List Nat) :
    ∀ fuel i ts, Lexer.genTokensFrom bytes fuel i = .ok ts →
      tokensInv bytes i ts := by
  intro fuel
  induction fuel with
  | zero => intro i ts h; cases h
  | succ n ih =>
    intro i ts h
    rw [Lexer.genTokensFrom] at h
    by_cases h0 : i ≥ bytes.length
    · rw [if_pos h0] at h
      cases h
      refine ⟨by simp, rfl, ?_⟩
      intro j hij hjlen hncov
      omega
    · rw [if_neg h0] at h
      push_neg at h0
      by_cases h1 : (bytes.getD i 0 == 34) = true
      · rw [if_pos h1] at h
        simp only at h
        obtain ⟨ts', hts', rfl⟩ := RRes.map_eq_ok h
        have seg1 := add_quote_token_seg bytes i (by omega)
        have seg2 := get_string_in_quote_seg bytes (Lexer.add_quote_token bytes i).2 seg1.2.1
        have seg3 := add_quote_token_seg bytes
          (Lexer.get_string_in_quote bytes (Lexer.add_quote_token bytes i).2).2 seg2.2.1
        exact tokensInv_extend seg1 (tokensInv_extend seg2 (tokensInv_extend seg3 (ih _ _ hts')))
      · rw [if_neg h1] at h
        by_cases h2 : Lexer.is_delimiters (bytes.getD i 0) = true
        · rw [if_pos h2] at h
          simp only at h
          obtain ⟨ts', hts', rfl⟩ := RRes.map_eq_ok h
          exact tokensInv_extend (add_delimiter_token_seg bytes i h0) (ih _ _ hts')
        · rw [if_neg h2] at h
          by_cases h3 : Lexer.isRustWhitespace (bytes.getD i 0) = true
          · rw [if_pos h3] at h
            obtain ⟨hmem', hord', hgap'⟩ := ih _ _ h
            refine ⟨fun t ht => ⟨by have := (hmem' t ht).1; omega, (hmem' t ht).2⟩, hord', ?_⟩
            intro j hij hjlen hncov
            by_cases hji : j = i
            · subst hji
              exact h3
            · exact hgap' j (by omega) hjlen hncov
          · rw [if_neg h3] at h
            cases hk : Lexer.add_keyword_or_number bytes i with
            | ok r =>
              rw [hk] at h
              simp only at h
              obtain ⟨ts', hts', rfl⟩ := RRes.map_eq_ok h
              exact tokensInv_extend (add_keyword_or_number_ok_seg bytes i r h0 hk) (ih _ _ hts')
            | diverged => rw [hk] at h; simp only at h; cases h
            | panicked => rw [hk] at h; simp only at h; cases h
            | err e => rw [hk] at h; simp only at h; cases h

/-! ## Claim theorems -/

/-- C1: the claimed `UnterminatedString` lexical error does not exist in the
code.  On the input `"a␠` (a quote that is never closed), `generate_tokens`
of lexer.rs succeeds, silently truncating to a lone `Quote` token and a
`String` token covering only `a`; on `"a`, `gen_lexemes` of lexer_lt.rs
panics with an out-of-bounds index (`s[j]` at `j = s.len()`). -/
theorem c1_unterminated_quote_behavior :
    Lexer.generate_tokens [34, 97, 32] =
      RRes.ok [⟨[34], 0, .quote⟩, ⟨[97], 1, .string⟩]
    ∧ LexerLt.gen_lexemes [34, 97] = RRes.panicked :=
  ⟨rfl, rfl⟩

/-- C2: on the bare word `x` (not `null`/`true`/`false`, first byte not a
digit) no `LexError::UnsupportedToken` is returned: `generate_tokens` of
lexer.rs aborts via `panic!("Unsupported keyword or number.")`, and
`gen_lexemes` of lexer_lt.rs silently drops the word, succeeding with an
empty lexeme list. -/
theorem c2_unsupported_word_behavior :
    Lexer.generate_tokens [120, 32] = RRes.panicked
    ∧ LexerLt.gen_lexemes [120, 32] = RRes.ok [] :=
  ⟨rfl, rfl⟩

/-- C3 counterexample: on the input `{"a":1}{"b":2}` the parser does not
return a `TrailingData` error — `parse_lt` returns the first value
`Object("a" ↦ 1)`, silently ignoring the second object. -/
theorem c3_counterexample_trailing_data_accepted :
    ParserLt.parse_lt [123, 34, 97, 34, 58, 49, 125, 123, 34, 98, 34, 58, 50, 125] =
      RRes.ok (Value.object [([97], Value.number ⟨1, 0⟩)]) :=
  rfl

/-- C3 (amended): after parsing one top-level value, remaining tokens are
not checked.  `parse_value` of parser.rs, on the token sequence of
`{"a":1}{"b":2}`, returns the first object together with the seven unread
tokens of the second object (`parse` hands this pair to the caller
unchanged), and `parse_lt` of parser_lt.rs returns the first value,
discarding the leftovers. -/
theorem c3_trailing_tokens_returned_unchecked :
    Parser.parse_value 60
      [⟨[123], .lBracket⟩, ⟨[34], .quote⟩, ⟨[97], .string⟩, ⟨[34], .quote⟩,
        ⟨[58], .colon⟩, ⟨[49], .string⟩, ⟨[125], .rBracket⟩,
        ⟨[123], .lBracket⟩, ⟨[34], .quote⟩, ⟨[98], .string⟩, ⟨[34], .quote⟩,
        ⟨[58], .colon⟩, ⟨[50], .string⟩, ⟨[125], .rBracket⟩] =
      RRes.ok (Value.object [([97], Value.number ⟨1, 0⟩)],
        [⟨[123], .lBracket⟩, ⟨[34], .quote⟩, ⟨[98], .string⟩, ⟨[34], .quote⟩,
          ⟨[58], .colon⟩, ⟨[50], .string⟩, ⟨[125], .rBracket⟩])
    ∧ ParserLt.parse_lt [123, 34, 97, 34, 58, 49, 125, 34, 98, 34] =
      RRes.ok (Value.object [([97], Value.number ⟨1, 0⟩)]) :=
  ⟨rfl, rfl⟩

/-- C4: inserting a repeated object key overwrites the earlier value
(`hashGet k` after `hashInsert k v` always yields `v`, for any prior map),
and concretely `{"k":1,"k":2}` parses to `Object("k" ↦ 2)` through both
parsers. -/
theorem c4_last_write_wins :
    (∀ m k v, hashGet k (hashInsert k v m) = some v)
    ∧ ParserLt.parse_lt [123, 34, 107, 34, 58, 49, 44, 34, 107, 34, 58, 50, 125] =
        RRes.ok (Value.object [([107], Value.number ⟨2, 0⟩)])
    ∧ Parser.parse_object 60
        [⟨[123], .lBracket⟩, ⟨[34], .quote⟩, ⟨[107], .string⟩, ⟨[34], .quote⟩,
          ⟨[58], .colon⟩, ⟨[49], .string⟩, ⟨[44], .commas⟩,
          ⟨[34], .quote⟩, ⟨[107], .string⟩, ⟨[34], .quote⟩,
          ⟨[58], .colon⟩, ⟨[50], .string⟩, ⟨[125], .rBracket⟩] =
        RRes.ok (Value.object [([107], Value.number ⟨2, 0⟩)], []) := by
  refine ⟨?_, rfl, rfl⟩
  intro m k v
  induction m with
  | nil => simp [hashInsert, hashGet]
  | cons p rest ih =>
    obtain ⟨k', v'⟩ := p
    by_cases h : k = k'
    · simp [hashInsert, hashGet, h]
    · simp [hashInsert, hashGet, h, ih]

/-- C5 counterexample: on the input `"␠␠` the tokenizer of lexer.rs
succeeds, and its `String` token covers the whitespace byte at offset 1 —
so "no whitespace byte is covered by any token" fails on a succeeding run.
On `""` the tokenizer also succeeds with an empty `String` span sharing its
start offset with the closing `Quote`, so the spans are not strictly
increasing. -/
theorem c5_counterexample_whitespace_covered :
    (Lexer.generate_tokens [34, 32, 32] =
        RRes.ok [⟨[34], 0, .quote⟩, ⟨[32], 1, .string⟩]
      ∧ ¬ tokensWsFree [34, 32, 32] [⟨[34], 0, .quote⟩, ⟨[32], 1, .string⟩])
    ∧ (Lexer.generate_tokens [34, 34] =
        RRes.ok [⟨[34], 0, .quote⟩, ⟨[], 1, .string⟩, ⟨[34], 1, .quote⟩]
      ∧ spansStrictMono [⟨[34], 0, .quote⟩, ⟨[], 1, .string⟩, ⟨[34], 1, .quote⟩] = false) :=
  ⟨⟨rfl, by decide⟩, ⟨rfl, rfl⟩⟩

/-- C6: a bare word that extends to the end of the buffer is not scanned as
a maximal run.  On input `true` (no trailing byte), `generate_tokens` of
lexer.rs drops the final byte (the word becomes `tru`) and panics as an
unsupported keyword instead of emitting a Boolean token, while the scan
loop of `gen_lexemes` of lexer_lt.rs never advances (`get_string` returns
`end = start`), i.e. it loops forever at any fuel. -/
theorem c6_word_at_end_of_buffer_behavior :
    Lexer.generate_tokens [116, 114, 117, 101] = RRes.panicked
    ∧ ∀ fuel, LexerLt.genLexFrom [116, 114, 117, 101] fuel 0 = RRes.diverged := by
  refine ⟨rfl, fun fuel => ?_⟩
  induction fuel with
  | zero => rfl
  | succ n ih => exact ih

/-- C8: a leading token that cannot begin a value is not uniformly a typed
`UnexpectedToken` error: `parse_value` of parser.rs does return the typed
error (`"expect a value"`), but `parse_lt` of parser_lt.rs falls through to
`unimplemented!()` and panics, e.g. on the input `:`. -/
theorem c8_unexpected_leading_token_behavior :
    ParserLt.parse_lt [58] = RRes.panicked
    ∧ Parser.parse_value 60 [⟨[58], .colon⟩] = RRes.err "expect a value" :=
  ⟨rfl, rfl⟩

/-- C9: array elements not separated by commas are not rejected, and the
closing `]` is not enforced as claimed.  On `[true false]`, `parse_lt` of
parser_lt.rs accepts both elements (the comma is optional), while
`parse_value` of parser.rs stops after the first element, silently dropping
`false` and leaving the `]` token unread; on the tokens of `[true}`,
parser.rs consumes the `}` in place of `]` without checking it and
succeeds; on the tokens of `[true` (no closer at all) it panics on an
out-of-range slice instead of returning `UnterminatedArray`. -/
theorem c9_array_termination_behavior :
    ParserLt.parse_lt [91, 116, 114, 117, 101, 32, 102, 97, 108, 115, 101, 93] =
      RRes.ok (Value.array [Value.bool true, Value.bool false])
    ∧ Parser.parse_value 60
        [⟨[91], .sLBracket⟩, ⟨[116, 114, 117, 101], .bool⟩,
          ⟨[102, 97, 108, 115, 101], .bool⟩, ⟨[93], .sRBracket⟩] =
      RRes.ok (Value.array [Value.bool true], [⟨[93], .sRBracket⟩])
    ∧ Parser.parse_value 60
        [⟨[91], .sLBracket⟩, ⟨[116, 114, 117, 101], .bool⟩, ⟨[125], .rBracket⟩] =
      RRes.ok (Value.array [Value.bool true], [])
    ∧ Parser.parse_value 60
        [⟨[91], .sLBracket⟩, ⟨[116, 114, 117, 101], .bool⟩] = RRes.panicked :=
  ⟨rfl, rfl, rfl, rfl⟩

/-- C10: when the members of an object consume every remaining token, both
`parse_object`s perform an out-of-bounds index instead of returning an
error: parser.rs indexes `lexemes[0]` on an empty vector after the member
loop (tokens of `{"a":1`), and parser_lt.rs indexes `k.1[0]` on an empty
slice after reading the key (input `{"a"`). -/
theorem c10_object_overrun_panics :
    ParserLt.parse_lt [123, 34, 97, 34] = RRes.panicked
    ∧ Parser.parse_object 60
        [⟨[123], .lBracket⟩, ⟨[34], .quote⟩, ⟨[97], .string⟩, ⟨[34], .quote⟩,
          ⟨[58], .colon⟩, ⟨[49], .string⟩] = RRes.panicked :=
  ⟨rfl, rfl⟩

/-- C5 (amended): whenever `generate_tokens` of lexer.rs succeeds, the
emitted token spans are in non-decreasing order and non-overlapping (each
token begins at or after the end of the previous one), stay within the
input, and every input byte not covered by a token is ASCII whitespace —
so concatenating the token spans with the skipped whitespace gaps
reproduces the input exactly. -/
theorem c5_spans_ordered_gaps_whitespace :
    ∀ bytes ts, Lexer.generate_tokens bytes = RRes.ok ts →
      spansOrdered ts = true
      ∧ (∀ t ∈ ts, tokenStop t ≤ bytes.length)
      ∧ gapsWhitespace bytes ts := by
  intro bytes ts h
  obtain ⟨hmem, hord, hgap⟩ := genTokensFrom_inv bytes (bytes.length + 1) 0 ts h
  exact ⟨hord, fun t ht => (hmem t ht).2, fun j hj hncov => hgap j (by omega) hj hncov⟩

/-- Witness for the amended C5 theorem at the concrete input `{ }`. -/
theorem c5_spans_ordered_gaps_whitespace_witness :
    spansOrdered [⟨[123], 0, .leftBracket⟩, ⟨[125], 2, .rightBracket⟩] = true
    ∧ (∀ t ∈ ([⟨[123], 0, .leftBracket⟩, ⟨[125], 2, .rightBracket⟩] : List Lexer.Token),
        tokenStop t ≤ ([123, 32, 125] : List Nat).length)
    ∧ gapsWhitespace [123, 32, 125] [⟨[123], 0, .leftBracket⟩, ⟨[125], 2, .rightBracket⟩] :=
  c5_spans_ordered_gaps_whitespace [123, 32, 125]
    [⟨[123], 0, .leftBracket⟩, ⟨[125], 2, .rightBracket⟩] (by decide)

/-- C7: `generate_tokens` of lexer.rs is total — it halts on every input
(possibly by panicking, never by looping) — but `gen_lexemes` of
lexer_lt.rs does not terminate on the one-byte input `a`: its scan position
stops advancing, so the loop body repeats the same state at every fuel. -/
theorem c7_generate_tokens_halts_gen_lexemes_loops :
    (∀ bytes, (Lexer.generate_tokens bytes).halts = true)
    ∧ LexerLt.gen_lexemes [97] = RRes.diverged
    ∧ ∀ fuel, LexerLt.genLexFrom [97] fuel 0 = RRes.diverged := by
  refine ⟨Lexer.generate_tokens_halts, rfl, fun fuel => ?_⟩
  induction fuel with
  | zero => rfl
  | succ n ih => exact ih

end Parsing
